import Mathlib

/-!
Verification development for the name-exchange engine of rs-NameExchanger.

The engine (src/lib/lib.rs, src/lib/path_checkout.rs, src/lib/file_rename.rs)
swaps the base names of two filesystem entries.  We embed it shallowly:

* a filesystem path (`PathBuf`) is modelled as `RPath`, an absoluteness flag
  plus the list of its normal components, mirroring `std::path` component
  semantics (`file_name`, `file_stem`, `extension`, `parent`, `strip_prefix`);
* the operating system (`std::fs`) is an explicit record `OS σ` over an
  abstract state `σ`: existence / kind queries, `canonicalize`, and `rename`
  returning the error kinds distinguished by `handle_rename`
  (`PermissionDenied`, `AlreadyExists`, anything else);
* every function of the repository is translated one-to-one
  (`path_check`-normalization, `if_exist`'s `make_absolute`, `if_file`,
  `if_same_dir`, `if_root` / `path_is_parent`, `get_info`, `make_name`,
  `rename_each`, `handle_rename`, and the `exchange` driver `exchangeCore`);
  the executor is instrumented with a trace of the attempted renames, which
  is observable in the real program through its per-rename reporting;
* a concrete filesystem model `FSState` (a finite list of entries with a
  file/directory flag, renames rewriting a whole subtree) instantiates the
  abstract OS for concrete runs.
-/

/-- model of a `PathBuf`: whether the path is rooted, and its normal
components in order.  (`.` components are normalized away exactly as
`std::path::Components` does; a trailing `..` is handled explicitly in
`fileName` below.  Equality of `RPath` is component equality, which matches
`PathBuf` equality on the normalized strings handled by this program.) -/
structure RPath where
  absolute : Bool
  comps : List String
deriving DecidableEq, Repr

/-- components of a path as `std::path::Components` yields them: a root
token (here `none`) when the path is absolute, then the normal components.
`Path::strip_prefix` succeeds exactly when one component list is a prefix
of the other. -/
def rcomps (p : RPath) : List (Option String) :=
  (if p.absolute then [none] else []) ++ p.comps.map some

/-- model of `Path::parent`: drop the last component; `None` for an empty
or root path. -/
def parent (p : RPath) : Option RPath :=
  match p.comps with
  | [] => none
  | _ :: _ => some ⟨p.absolute, p.comps.dropLast⟩

/-- model of `Path::file_name`: the final normal component; `None` when
there is none or the path ends in `..`. -/
def fileName (p : RPath) : Option String :=
  match p.comps.getLast? with
  | some s => if s = ".." then none else some s
  | none => none

/-- model of `PathBuf::push` / `Path::join` with a single plain name.
Pushing the empty string leaves the component list unchanged (in Rust it
only adds a trailing separator, which no component reads back). -/
def pushComp (p : RPath) (name : String) : RPath :=
  if name = "" then p else ⟨p.absolute, p.comps ++ [name]⟩

/-- boolean prefix test on component lists (the computational content of
`Path::strip_prefix(..).is_ok()`). -/
def listIsPre : List (Option String) → List (Option String) → Bool
  | [], _ => true
  | _ :: _, [] => false
  | a :: as, b :: bs => if a = b then listIsPre as bs else false

/-- `path_checkout.rs::path_is_parent`: `potential_child.strip_prefix(potential_parent).is_ok()`. -/
def path_is_parent (potential_parent potential_child : RPath) : Bool :=
  listIsPre (rcomps potential_parent) (rcomps potential_child)

/-- `path_checkout.rs::if_root`: 1 when path1 contains path2, 2 when path2
contains path1, 0 otherwise. -/
def if_root (path1 path2 : RPath) : Nat :=
  if path_is_parent path1 path2 then 1
  else if path_is_parent path2 path1 then 2
  else 0

/-- `path_checkout.rs::if_same_dir`: compare the two parents.  The source
unwraps `parent()`; the default value stands for states on which the source
program would abort, none of which are reached by the theorems below. -/
def if_same_dir (path1 path2 : RPath) : Bool :=
  decide ((parent path1).getD ⟨false, []⟩ = (parent path2).getD ⟨false, []⟩)

/-- the closure `make_absolute` inside `path_checkout.rs::if_exist`: a
relative path is replaced by `dir.join(path.file_name().unwrap_or(""))`. -/
def make_absolute (dir : RPath) (p : RPath) : RPath :=
  if p.absolute then p else pushComp dir ((fileName p).getD "")

/-- splitting of a file name at its last dot, searching only positions
after the first character: the recursion returns `some (a, b)` when
`cs = a ++ dot :: b` with no dot in `b`. -/
def lastSplitDot : List Char → Option (List Char × List Char)
  | [] => none
  | c :: rest =>
    match lastSplitDot rest with
    | some (a, b) => some (c :: a, b)
    | none => if c = '.' then some ([], rest) else none

/-- model of `std::path`'s `split_file_at_dot`, the common core of
`file_stem` and `extension`: `..` and names whose only dot leads are not
split; otherwise the name splits at its final dot. -/
def splitFileAtDot (n : String) : String × Option String :=
  if n = ".." then (n, none)
  else
    match n.toList with
    | [] => (n, none)
    | c :: rest =>
      match lastSplitDot rest with
      | none => (n, none)
      | some (a, b) => (⟨c :: a⟩, some ⟨b⟩)

/-- model of `Path::file_stem`. -/
def file_stem (p : RPath) : Option String :=
  (fileName p).map (fun n => (splitFileAtDot n).1)

/-- model of `Path::extension`. -/
def extensionOf (p : RPath) : Option String :=
  (fileName p).bind (fun n => (splitFileAtDot n).2)

/-- `path_checkout.rs::MetadataCollection`. -/
structure MetadataCollection where
  name : String
  ext : String
  parent_dir : RPath
deriving DecidableEq, Repr

/-- the string-extraction closure inside `path_checkout.rs::get_info`:
an extension gains its leading dot, a missing part becomes empty. -/
def get_string_closure (original_result : Option String) (is_ext : Bool) : String :=
  match original_result with
  | some i => if is_ext then "." ++ i else i
  | none => ""

/-- `path_checkout.rs::get_info`: for a directory the name keeps any
dot-suffix and the extension is empty; for a file the name is the stem and
the extension carries its leading dot. -/
def get_info (file_path : RPath) (is_file : Bool) : MetadataCollection :=
  if !is_file then
    { name := get_string_closure (file_stem file_path) false
        ++ get_string_closure (extensionOf file_path) true
      ext := ""
      parent_dir :=
        match parent file_path with
        | some i => i
        | none => ⟨false, []⟩ }
  else
    { name := get_string_closure (file_stem file_path) false
      ext := get_string_closure (extensionOf file_path) true
      parent_dir :=
        match parent file_path with
        | some i => i
        | none => ⟨false, []⟩ }

/-- `file_rename.rs::GUID`, the reserved staging base name. -/
def GUID : String := "1C6FD285BEDCC274F"

/-- `file_rename.rs::PrepareName`. -/
structure PrepareName where
  original_path : RPath
  new_path : RPath
  pre_path : RPath
deriving DecidableEq, Repr

/-- `file_rename.rs::FileInfos`. -/
structure FileInfos where
  is_exist : Bool
  is_file : Bool
  packed_info : MetadataCollection
  exchange : PrepareName
deriving DecidableEq, Repr

/-- `file_rename.rs::NameExchange`. -/
structure NameExchange where
  f1 : FileInfos
  f2 : FileInfos
deriving DecidableEq, Repr

/-- `file_rename.rs::make_name`: the staging path pushes `GUID ++ ext` onto
the directory, the final path pushes `other_name ++ ext`. -/
def make_name (dir : RPath) (other_name : String) (ext : String) : RPath × RPath :=
  let temp_additional_name := GUID ++ ext
  let new_pre_name := pushComp dir temp_additional_name
  let new_name := pushComp dir (other_name ++ ext)
  (new_pre_name, new_name)

/-- error kinds distinguished by `file_rename.rs::handle_rename`:
`PermissionDenied`, `AlreadyExists`, and every other `io::ErrorKind`. -/
inductive RenameErr where
  | permissionDenied
  | alreadyExists
  | other
deriving DecidableEq, Repr

/-- one attempted rename, as reported by `handle_rename`'s logging:
source, destination, and the outcome of the underlying OS call. -/
structure RenameEvent where
  src : RPath
  dst : RPath
  res : Option RenameErr
deriving DecidableEq, Repr

/-- the operating-system interface used by the program (`std::fs` and
`Path::exists` / `is_file` / `canonicalize`) over an abstract world state
`σ`: queries are pure, `rename` may change the world. -/
structure OS (σ : Type) where
  pathExists : σ → RPath → Bool
  isFile : σ → RPath → Bool
  canonicalize : σ → RPath → Option RPath
  rename : σ → RPath → RPath → Option RenameErr × σ

/-- `file_rename.rs::handle_rename`: perform one rename and map the error
kind to the result code (0 success, 2 permission denied, 3 destination
exists, 255 anything else).  Also yields the reported event. -/
def handle_rename {σ : Type} (os : OS σ) (s : σ) (src dst : RPath) :
    Int × σ × RenameEvent :=
  match os.rename s src dst with
  | (none, s2) => (0, s2, ⟨src, dst, none⟩)
  | (some RenameErr.permissionDenied, s2) =>
      (2, s2, ⟨src, dst, some RenameErr.permissionDenied⟩)
  | (some RenameErr.alreadyExists, s2) =>
      (3, s2, ⟨src, dst, some RenameErr.alreadyExists⟩)
  | (some RenameErr.other, s2) => (255, s2, ⟨src, dst, some RenameErr.other⟩)

/-- the entry renamed directly first by `rename_each` (the source's
`path1`/`final_name1` selection after the `file1_first` overwrite). -/
def firstEx (self : NameExchange) (file1_first : Bool) : PrepareName :=
  if file1_first then self.f1.exchange else self.f2.exchange

/-- the other entry of `rename_each` (the source's `path2`/`final_name2`
with its staging path `tmp_name2`). -/
def secondEx (self : NameExchange) (file1_first : Bool) : PrepareName :=
  if file1_first then self.f2.exchange else self.f1.exchange

/-- `file_rename.rs::rename_each`.  The source first lets
`path1/final_name1` name the f2 data and `path2/final_name2/tmp_name2` the
f1 data, then overwrites the selection when `file1_first`; here `first` is
the entry renamed directly (`path1` of the source) and `second` the other
(`path2`, with its staging path `tmp_name2`).  Nested: two direct renames.
Not nested: second to its staging path, first to its final name, staging
path to second's final name; stop at the first non-zero code. -/
def rename_each {σ : Type} (os : OS σ) (self : NameExchange)
    (is_nested file1_first : Bool) (s : σ) : Int × σ × List RenameEvent :=
  let first := firstEx self file1_first
  let second := secondEx self file1_first
  if is_nested then
    match handle_rename os s first.original_path first.new_path with
    | (c1, s1, ev1) =>
      if c1 ≠ 0 then (c1, s1, [ev1])
      else
        match handle_rename os s1 second.original_path second.new_path with
        | (c2, s2, ev2) =>
          if c2 ≠ 0 then (c2, s2, [ev1, ev2]) else (0, s2, [ev1, ev2])
  else
    match handle_rename os s second.original_path second.pre_path with
    | (c1, s1, ev1) =>
      if c1 ≠ 0 then (c1, s1, [ev1])
      else
        match handle_rename os s1 first.original_path first.new_path with
        | (c2, s2, ev2) =>
          if c2 ≠ 0 then (c2, s2, [ev1, ev2])
          else
            match handle_rename os s2 second.pre_path second.new_path with
            | (c3, s3, ev3) =>
              if c3 ≠ 0 then (c3, s3, [ev1, ev2, ev3])
              else (0, s3, [ev1, ev2, ev3])

/-- the strategy selection of `lib.rs::exchange` lines 112-136: the match
on `(is_file1, is_file2)` and the containment mode choosing the
`rename_each` flags. -/
def renameDispatch {σ : Type} (os : OS σ) (info : NameExchange)
    (is_file1 is_file2 : Bool) (mode : Nat) (s : σ) : Int × σ × List RenameEvent :=
  match is_file1, is_file2 with
  | true, true => rename_each os info false true s
  | false, false =>
    match mode with
    | 1 => rename_each os info true false s
    | 2 => rename_each os info true true s
    | _ => rename_each os info false true s
  | true, false =>
    if mode = 2 then rename_each os info true true s
    else rename_each os info false true s
  | false, true =>
    if mode = 1 then rename_each os info true false s
    else rename_each os info false false s

/-- the plan-building part of `lib.rs::exchange` lines 54-77: original
paths, kind flags, collected metadata, and the two `make_name` results. -/
def buildInfos (q1 q2 : RPath) (is_file1 is_file2 : Bool) : NameExchange :=
  let m1 := get_info q1 is_file1
  let m2 := get_info q2 is_file2
  let n1 := make_name m1.parent_dir m2.name m1.ext
  let n2 := make_name m2.parent_dir m1.name m2.ext
  { f1 := { is_exist := true, is_file := is_file1, packed_info := m1
            exchange := ⟨q1, n1.2, n1.1⟩ }
    f2 := { is_exist := true, is_file := is_file2, packed_info := m2
            exchange := ⟨q2, n2.2, n2.1⟩ } }

/-- the collision pre-check of `lib.rs::exchange` lines 79-94: build the
would-be destination pack, resolve it through `if_exist` again, and flag an
abort when the parents differ and either destination already exists. -/
def collisionFlag {σ : Type} (os : OS σ) (exe_dir : RPath) (q1 q2 : RPath)
    (s : σ) : Bool :=
  let info := buildInfos q1 q2 (os.isFile s q1) (os.isFile s q2)
  let n1 := make_absolute exe_dir info.f1.exchange.new_path
  let n2 := make_absolute exe_dir info.f2.exchange.new_path
  let exist_new_1 := os.pathExists s n1
  let exist_new_2 := os.pathExists s n2
  let same_dir := if_same_dir n1 n2
  !same_dir && (exist_new_1 || exist_new_2)

/-- `lib.rs::exchange` from the point where both paths have passed
`path_check` (lines 47-137): resolve relatives against the executable
directory (`if_exist`), check existence, reject identical paths, classify,
plan, run the collision pre-check (skipped for a shared parent directory),
and dispatch to the executor.  The result carries the final world state and
the trace of attempted renames. -/
def exchangeCore {σ : Type} (os : OS σ) (exe_dir : RPath) (path1 path2 : RPath)
    (s : σ) : Int × σ × List RenameEvent :=
  let q1 := make_absolute exe_dir path1
  let q2 := make_absolute exe_dir path2
  if !(os.pathExists s q1) || !(os.pathExists s q2) then (1, s, [])
  else if q1 = q2 then (2, s, [])
  else
    let is_file1 := os.isFile s q1
    let is_file2 := os.isFile s q2
    let info := buildInfos q1 q2 is_file1 is_file2
    if collisionFlag os exe_dir q1 q2 s then (3, s, [])
    else renameDispatch os info is_file1 is_file2 (if_root q1 q2) s

/-- whitespace trimmed by `str::trim` (the ASCII cases; the program's
inputs are paths, for which these are the relevant ones). -/
def isWsChar (c : Char) : Bool :=
  c = ' ' || c = '\t' || c = '\n' || c = '\r'

/-- the character set of the source's `trim_matches(['\u{27}', '"', '\u{5c}', '\u{27}', '/'])`. -/
def isTrimChar (c : Char) : Bool :=
  c = '\'' || c = '"' || c = '\\' || c = '/'

/-- drop matching characters from the end of a list (the tail half of
`str::trim_matches`). -/
def dropLastWhile (f : Char → Bool) : List Char → List Char
  | [] => []
  | c :: rest =>
    match dropLastWhile f rest with
    | [] => if f c then [] else [c]
    | r => c :: r

/-- `str::trim_matches` with predicate `f`: strip all matching characters
from both ends. -/
def trimMatches (f : Char → Bool) (cs : List Char) : List Char :=
  dropLastWhile f (cs.dropWhile f)

/-- `str::replace("\u{5c}", "/")`: a single-character pattern replacement is a map. -/
def replaceBack (cs : List Char) : List Char :=
  cs.map (fun c => if c = '\\' then '/' else c)

/-- `str::replace("//", "/")`: one left-to-right pass over non-overlapping
occurrences. -/
def collapseSlashes : List Char → List Char
  | '/' :: '/' :: rest => '/' :: collapseSlashes rest
  | c :: rest => c :: collapseSlashes rest
  | [] => []

/-- the normalization part of the `path_check` closure in `lib.rs::exchange`
lines 32-41: `trim`, `trim_matches` over quotes and separators, backslashes
to slashes, collapse doubled slashes. -/
def path_check_norm (s : String) : String :=
  ⟨collapseSlashes (replaceBack (trimMatches isTrimChar (trimMatches isWsChar s.toList)))⟩

/-- parse a normalized path string into components: split on `/`, dropping
empty and `.` components as `std::path::Components` does.  Normalized
strings never begin with a separator (the normalization strips them), so
the parsed path is relative; absolute paths enter through `canonicalize`. -/
def parsePath (s : String) : RPath :=
  ⟨false, (s.splitOn "/").filter (fun c => c ≠ "" && c ≠ ".")⟩

/-- the full `path_check` closure: normalize, then `canonicalize` with
fallback to the normalized path when canonicalization fails. -/
def path_check {σ : Type} (os : OS σ) (s : σ) (raw : String) : RPath :=
  let temp := parsePath (path_check_norm raw)
  match os.canonicalize s temp with
  | some q => q
  | none => temp

/-- `lib.rs::exchange` on raw path text: `path_check` both inputs, then run
the core. -/
def exchangeText {σ : Type} (os : OS σ) (exe_dir : RPath) (raw1 raw2 : String)
    (s : σ) : Int × σ × List RenameEvent :=
  exchangeCore os exe_dir (path_check os s raw1) (path_check os s raw2) s

/-- concrete filesystem state: the finite list of existing entries, each
with its `is_file` flag. -/
abbrev FSState := List (RPath × Bool)

/-- an entry exists exactly when it is listed. -/
def fsExists (s : FSState) (p : RPath) : Bool :=
  s.any (fun e => e.1 = p)

/-- an entry is a file when it is listed as one. -/
def fsIsFile (s : FSState) (p : RPath) : Bool :=
  s.any (fun e => e.1 = p && e.2)

/-- `p` lies at or below `anc` (component-prefix containment). -/
def isUnder (anc p : RPath) : Bool :=
  listIsPre (rcomps anc) (rcomps p)

/-- effect of `rename src dst` on one entry: an entry at or below `src`
moves under `dst`, any other entry is untouched. -/
def renameOne (src dst p : RPath) : RPath :=
  if isUnder src p then ⟨dst.absolute, dst.comps ++ p.comps.drop src.comps.length⟩
  else p

/-- idealized rename semantics: fails when the destination already exists,
fails when the source is missing, otherwise moves the source subtree. -/
def fsRename (s : FSState) (src dst : RPath) : Option RenameErr × FSState :=
  if fsExists s dst then (some RenameErr.alreadyExists, s)
  else if fsExists s src then (none, s.map (fun e => (renameOne src dst e.1, e.2)))
  else (some RenameErr.other, s)

/-- the concrete OS over `FSState`; `canonicalize` is modelled as always
falling back (the program falls back to the normalized path whenever
canonicalization fails). -/
def osFS : OS FSState :=
  { pathExists := fsExists
    isFile := fsIsFile
    canonicalize := fun _ _ => none
    rename := fun s src dst => fsRename s src dst }

/-! Helper lemmas about the path model. -/

/-- pushing a component never changes rootedness. -/
theorem pushComp_absolute (p : RPath) (n : String) :
    (pushComp p n).absolute = p.absolute := by
  unfold pushComp; split <;> rfl

/-- pushing a non-empty component appends it to the component list. -/
theorem pushComp_comps (p : RPath) (n : String) (h : n ≠ "") :
    (pushComp p n).comps = p.comps ++ [n] := by
  unfold pushComp; simp [h]

/-- the parent of a path extended by one non-empty component is the path itself. -/
theorem parent_pushComp (p : RPath) (n : String) (h : n ≠ "") :
    parent (pushComp p n) = some p := by
  rcases p with ⟨ab, cs⟩
  have hp : pushComp ⟨ab, cs⟩ n = ⟨ab, cs ++ [n]⟩ := by unfold pushComp; simp [h]
  rw [hp]
  unfold parent
  rcases he : cs ++ [n] with _ | ⟨a, l⟩
  · simp at he
  · simp only [he]
    rw [← he, List.dropLast_concat]

/-- the file name of a path extended by one plain non-empty component is
that component. -/
theorem fileName_pushComp (p : RPath) (n : String) (h : n ≠ "") (h2 : n ≠ "..") :
    fileName (pushComp p n) = some n := by
  unfold pushComp fileName
  simp [h, h2, List.getLast?_concat]

/-- every list is a `listIsPre` of itself extended by anything. -/
theorem listIsPre_append (a t : List (Option String)) : listIsPre a (a ++ t) = true := by
  induction a with
  | nil => rfl
  | cons x xs ih => simp [listIsPre, ih]

/-- a path always lies under itself. -/
theorem isUnder_self (p : RPath) : isUnder p p = true := by
  have h := listIsPre_append (rcomps p) []
  simpa [isUnder] using h

/-! Helper lemmas about file-name splitting. -/

/-- soundness of `lastSplitDot`: a successful split reassembles the input. -/
theorem lastSplitDot_eq (cs : List Char) (a b : List Char)
    (h : lastSplitDot cs = some (a, b)) : cs = a ++ '.' :: b := by
  induction cs generalizing a b with
  | nil => simp [lastSplitDot] at h
  | cons c rest ih =>
    unfold lastSplitDot at h
    rcases hr : lastSplitDot rest with _ | ⟨a2, b2⟩
    · rw [hr] at h
      by_cases hc : c = '.'
      · simp [hc] at h
        rcases h with ⟨ha, hb⟩
        simp [← ha, ← hb, hc]
      · simp [hc] at h
    · rw [hr] at h
      simp at h
      rcases h with ⟨ha, hb⟩
      have := ih a2 b2 hr
      simp [← ha, ← hb, this]

/-- when `splitFileAtDot` yields an extension, stem, dot and extension
reassemble the name. -/
theorem splitFileAtDot_some (n : String) (e : String)
    (h : (splitFileAtDot n).2 = some e) :
    (splitFileAtDot n).1 ++ "." ++ e = n := by
  rcases n with ⟨cs⟩
  by_cases hdd : String.mk cs = ".."
  · rw [hdd] at h
    simp [splitFileAtDot] at h
  · rcases cs with _ | ⟨c, rest⟩
    · simp [splitFileAtDot, hdd] at h
    · rcases hs : lastSplitDot rest with _ | ⟨a, b⟩
      · simp [splitFileAtDot, hdd, String.toList, hs] at h
      · simp only [splitFileAtDot, hdd, if_false, String.toList, hs] at h ⊢
        simp only [Option.some.injEq] at h
        have hre : rest = a ++ '.' :: b := lastSplitDot_eq rest a b hs
        rw [← h, hre]
        show String.mk (((c :: a) ++ ['.']) ++ b) = String.mk (c :: (a ++ '.' :: b))
        congr 1
        simp

/-- when `splitFileAtDot` yields no extension, the stem is the whole name. -/
theorem splitFileAtDot_none (n : String) (h : (splitFileAtDot n).2 = none) :
    (splitFileAtDot n).1 = n := by
  rcases n with ⟨cs⟩
  by_cases hdd : String.mk cs = ".."
  · rw [hdd]
    simp [splitFileAtDot]
  · rcases cs with _ | ⟨c, rest⟩
    · simp [splitFileAtDot, hdd]
    · rcases hs : lastSplitDot rest with _ | ⟨a, b⟩
      · simp [splitFileAtDot, hdd, String.toList, hs]
      · simp [splitFileAtDot, hdd, String.toList, hs] at h

/-- associativity of string concatenation, via the underlying lists. -/
theorem strAppend_assoc (a b c : String) : a ++ b ++ c = a ++ (b ++ c) := by
  rcases a with ⟨x⟩
  rcases b with ⟨y⟩
  rcases c with ⟨z⟩
  show String.mk ((x ++ y) ++ z) = String.mk (x ++ (y ++ z))
  congr 1
  simp

/-- C5: for each planned entry, the final path is the partner's stem plus the
entry's own extension pushed onto the entry's own parent directory, and the
staging path is the constant reserved base name `GUID` plus the entry's own
extension in the same directory; the staging path does not depend on the
partner's name.  When the combined final name is a proper name, the final
path indeed sits in the entry's own parent directory under that name. -/
theorem claim5_plan_shape (q1 q2 : RPath) (b1 b2 : Bool) :
    (buildInfos q1 q2 b1 b2).f1.exchange.new_path
      = pushComp (get_info q1 b1).parent_dir ((get_info q2 b2).name ++ (get_info q1 b1).ext)
    ∧ (buildInfos q1 q2 b1 b2).f1.exchange.pre_path
      = pushComp (get_info q1 b1).parent_dir (GUID ++ (get_info q1 b1).ext)
    ∧ (buildInfos q1 q2 b1 b2).f2.exchange.new_path
      = pushComp (get_info q2 b2).parent_dir ((get_info q1 b1).name ++ (get_info q2 b2).ext)
    ∧ (buildInfos q1 q2 b1 b2).f2.exchange.pre_path
      = pushComp (get_info q2 b2).parent_dir (GUID ++ (get_info q2 b2).ext)
    ∧ (∀ (d : RPath) (nA nB e : String), (make_name d nA e).1 = (make_name d nB e).1)
    ∧ (∀ nm : String, nm = (get_info q2 b2).name ++ (get_info q1 b1).ext →
        nm ≠ "" → nm ≠ ".." →
        fileName (buildInfos q1 q2 b1 b2).f1.exchange.new_path = some nm
        ∧ parent (buildInfos q1 q2 b1 b2).f1.exchange.new_path
            = some (get_info q1 b1).parent_dir) := by
  refine ⟨rfl, rfl, rfl, rfl, fun _ _ _ _ => rfl, ?_⟩
  intro nm hnm h1 h2
  have hshape : (buildInfos q1 q2 b1 b2).f1.exchange.new_path
      = pushComp (get_info q1 b1).parent_dir nm := by
    rw [hnm]
    exact rfl
  rw [hshape]
  exact ⟨fileName_pushComp _ nm h1 h2, parent_pushComp _ nm h1⟩

/-- C5 witness: two sibling files `/x/a.txt` and `/y/b.log`; entry 1's final
path carries the name `b.txt` inside `/x`. -/
theorem claim5_witness :
    ("b.txt" : String) = (get_info ⟨true, ["y", "b.log"]⟩ true).name
        ++ (get_info ⟨true, ["x", "a.txt"]⟩ true).ext
    ∧ fileName (buildInfos ⟨true, ["x", "a.txt"]⟩ ⟨true, ["y", "b.log"]⟩ true true).f1.exchange.new_path
        = some "b.txt"
    ∧ parent (buildInfos ⟨true, ["x", "a.txt"]⟩ ⟨true, ["y", "b.log"]⟩ true true).f1.exchange.new_path
        = some (get_info ⟨true, ["x", "a.txt"]⟩ true).parent_dir := by
  have h := (claim5_plan_shape ⟨true, ["x", "a.txt"]⟩ ⟨true, ["y", "b.log"]⟩ true true).2.2.2.2.2
      "b.txt" (by decide) (by decide) (by decide)
  exact ⟨by decide, h.1, h.2⟩

/-- C6: a relative path is resolved by joining exactly its final component
onto the base directory: the result is that single push, it is absolute
whenever the base is, and any two relative inputs with the same final
component resolve identically (the relative directory structure is
discarded). -/
theorem claim6_relative_resolution (dir p : RPath) (c : String)
    (hrel : p.absolute = false) (hname : fileName p = some c) :
    make_absolute dir p = pushComp dir c
    ∧ (make_absolute dir p).absolute = dir.absolute
    ∧ ∀ p2 : RPath, p2.absolute = false → fileName p2 = some c →
        make_absolute dir p2 = make_absolute dir p := by
  have h1 : make_absolute dir p = pushComp dir c := by
    unfold make_absolute
    rw [hrel, hname]
    rfl
  refine ⟨h1, by rw [h1, pushComp_absolute], ?_⟩
  intro p2 hr2 hn2
  have h2 : make_absolute dir p2 = pushComp dir c := by
    unfold make_absolute
    rw [hr2, hn2]
    rfl
  rw [h1, h2]

/-- C6 witness: `sub/doc.txt` relative to base `/base` resolves to
`/base/doc.txt`, the same as the bare `doc.txt` would. -/
theorem claim6_witness :
    (⟨false, ["sub", "doc.txt"]⟩ : RPath).absolute = false
    ∧ fileName ⟨false, ["sub", "doc.txt"]⟩ = some "doc.txt"
    ∧ make_absolute ⟨true, ["base"]⟩ ⟨false, ["sub", "doc.txt"]⟩
        = pushComp ⟨true, ["base"]⟩ "doc.txt"
    ∧ make_absolute ⟨true, ["base"]⟩ ⟨false, ["doc.txt"]⟩
        = make_absolute ⟨true, ["base"]⟩ ⟨false, ["sub", "doc.txt"]⟩ := by
  have h := claim6_relative_resolution ⟨true, ["base"]⟩ ⟨false, ["sub", "doc.txt"]⟩
      "doc.txt" rfl (by decide)
  exact ⟨rfl, by decide, h.1, h.2.2 ⟨false, ["doc.txt"]⟩ rfl (by decide)⟩

/-- C8: metadata extraction.  For a directory the recorded name is the full
final component (dot-suffix included), the extension is empty and the parent
is the containing directory; for a file the recorded name is the stem (the
name reassembles as stem, dot, extension when an extension exists), the
extension carries its leading dot (empty when there is none), and the parent
is the containing directory. -/
theorem claim8_metadata (p : RPath) (n : String) (h : fileName p = some n) :
    (get_info p false).name = n
    ∧ (get_info p false).ext = ""
    ∧ (get_info p false).parent_dir = (parent p).getD ⟨false, []⟩
    ∧ (∀ e : String, (splitFileAtDot n).2 = some e →
        (get_info p true).name ++ "." ++ e = n ∧ (get_info p true).ext = "." ++ e)
    ∧ ((splitFileAtDot n).2 = none →
        (get_info p true).name = n ∧ (get_info p true).ext = "")
    ∧ (get_info p true).parent_dir = (parent p).getD ⟨false, []⟩ := by
  have hstem : file_stem p = some (splitFileAtDot n).1 := by
    unfold file_stem
    rw [h]
    rfl
  have hext : extensionOf p = (splitFileAtDot n).2 := by
    unfold extensionOf
    rw [h]
    rfl
  have hpar : (get_info p false).parent_dir = (parent p).getD ⟨false, []⟩ := by
    show (match parent p with | some i => i | none => (⟨false, []⟩ : RPath))
        = (parent p).getD ⟨false, []⟩
    cases parent p <;> rfl
  have hparT : (get_info p true).parent_dir = (parent p).getD ⟨false, []⟩ := by
    show (match parent p with | some i => i | none => (⟨false, []⟩ : RPath))
        = (parent p).getD ⟨false, []⟩
    cases parent p <;> rfl
  refine ⟨?_, rfl, hpar, ?_, ?_, hparT⟩
  · show get_string_closure (file_stem p) false ++ get_string_closure (extensionOf p) true = n
    rw [hstem, hext]
    rcases he : (splitFileAtDot n).2 with _ | e
    · have := splitFileAtDot_none n he
      simpa [get_string_closure] using this
    · have hsome := splitFileAtDot_some n e he
      show (splitFileAtDot n).1 ++ ("." ++ e) = n
      rw [← strAppend_assoc]
      exact hsome
  · intro e he
    constructor
    · show get_string_closure (file_stem p) false ++ "." ++ e = n
      rw [hstem]
      exact splitFileAtDot_some n e he
    · show get_string_closure (extensionOf p) true = "." ++ e
      rw [hext, he]
      rfl
  · intro he
    constructor
    · show get_string_closure (file_stem p) false = n
      rw [hstem]
      exact splitFileAtDot_none n he
    · show get_string_closure (extensionOf p) true = ""
      rw [hext, he]
      rfl

/-- C8 witness: the entry `/x/a.b` as a directory has name `a.b`, empty
extension and parent `/x`; as a file it has stem `a` and extension `.b`. -/
theorem claim8_witness :
    fileName (⟨true, ["x", "a.b"]⟩ : RPath) = some "a.b"
    ∧ (get_info ⟨true, ["x", "a.b"]⟩ false).name = "a.b"
    ∧ (get_info ⟨true, ["x", "a.b"]⟩ false).ext = ""
    ∧ (get_info ⟨true, ["x", "a.b"]⟩ true).name ++ "." ++ "b" = "a.b"
    ∧ (get_info ⟨true, ["x", "a.b"]⟩ true).ext = ".b" := by
  have h := claim8_metadata ⟨true, ["x", "a.b"]⟩ "a.b" (by decide)
  have hsplit : (splitFileAtDot "a.b").2 = some "b" := by decide
  have hf := h.2.2.2.1 "b" hsplit
  exact ⟨by decide, h.1, h.2.1, hf.1, hf.2⟩

/-- C9: when either resolved input does not exist, the exchange returns
code 1 immediately: the world state is returned unchanged and no rename is
attempted. -/
theorem claim9_missing_path {σ : Type} (os : OS σ) (exe_dir p1 p2 : RPath) (s : σ)
    (h : os.pathExists s (make_absolute exe_dir p1) = false
      ∨ os.pathExists s (make_absolute exe_dir p2) = false) :
    exchangeCore os exe_dir p1 p2 s = (1, s, []) := by
  unfold exchangeCore
  rcases h with h | h <;> simp [h]

/-- C9 witness: an empty filesystem, so `/x` does not exist; the exchange
of `/x` and `/y` returns 1 with the filesystem untouched. -/
theorem claim9_witness :
    osFS.pathExists [] (make_absolute ⟨true, ["e"]⟩ ⟨true, ["x"]⟩) = false
    ∧ exchangeCore osFS ⟨true, ["e"]⟩ ⟨true, ["x"]⟩ ⟨true, ["y"]⟩ [] = (1, [], []) :=
  ⟨rfl, claim9_missing_path osFS ⟨true, ["e"]⟩ ⟨true, ["x"]⟩ ⟨true, ["y"]⟩ [] (Or.inl rfl)⟩

/-! Normalization: the claimed reading versus the source behavior. -/

/-- quote characters in the sense of C7's wording. -/
def isQuoteChar (c : Char) : Bool :=
  c = '\'' || c = '"'

/-- path separator characters. -/
def isSepChar (c : Char) : Bool :=
  c = '/' || c = '\\'

/-- strip exactly one trailing separator, if present. -/
def stripOneTrailingSep (cs : List Char) : List Char :=
  match cs.getLast? with
  | some c => if isSepChar c then cs.dropLast else cs
  | none => cs

/-- the normalization as claim C7 words it: trim surrounding whitespace and
quote characters, strip a single trailing separator (leading separators are
kept), convert separators, collapse doubled separators. -/
def norm_claim (s : String) : String :=
  ⟨collapseSlashes (replaceBack (stripOneTrailingSep
    (trimMatches isQuoteChar (trimMatches isWsChar s.toList))))⟩

/-- end-trimming expressed through reversal, used by the amended reading. -/
def trimRev (f : Char → Bool) (cs : List Char) : List Char :=
  ((cs.dropWhile f).reverse.dropWhile f).reverse

/-- the amended normalization: trim surrounding whitespace, then strip all
leading and trailing quote, backslash and slash characters, then convert
backslashes to slashes, then collapse doubled slashes in one left-to-right
pass. -/
def norm_amended (s : String) : String :=
  ⟨collapseSlashes (replaceBack (trimRev isTrimChar (trimRev isWsChar s.toList)))⟩

/-- the reverse of a `dropLastWhile` trims the reversed list from the front. -/
theorem dropLastWhile_rev (f : Char → Bool) (l : List Char) :
    (dropLastWhile f l).reverse = l.reverse.dropWhile f := by
  induction l with
  | nil => rfl
  | cons c rest ih =>
    have hstep : dropLastWhile f (c :: rest)
        = (match dropLastWhile f rest with
           | [] => if f c then [] else [c]
           | r => c :: r) := rfl
    rw [hstep, List.reverse_cons, List.dropWhile_append]
    rcases hr : dropLastWhile f rest with _ | ⟨x, xs⟩
    · rw [hr] at ih
      have hempty : (rest.reverse.dropWhile f).isEmpty = true := by
        rw [← ih]
        rfl
      rw [if_pos hempty]
      by_cases hc : f c
      · simp [List.dropWhile, hc]
      · simp [List.dropWhile, hc]
    · rw [hr] at ih
      have hne : ¬((rest.reverse.dropWhile f).isEmpty = true) := by
        rw [← ih]
        simp
      rw [if_neg hne, ← ih]
      simp

/-- `dropLastWhile` agrees with trimming the reversed list. -/
theorem dropLastWhile_eq (f : Char → Bool) (l : List Char) :
    dropLastWhile f l = (l.reverse.dropWhile f).reverse := by
  rw [← dropLastWhile_rev]
  simp

/-- both end-trimmings agree. -/
theorem trimMatches_eq_trimRev (f : Char → Bool) (cs : List Char) :
    trimMatches f cs = trimRev f cs := by
  unfold trimMatches trimRev
  rw [dropLastWhile_eq]

/-- C7 counterexample: on the input `/a` the source normalization strips the
leading separator (`trim_matches` trims the separator set at both ends),
while the claimed normalization keeps it. -/
theorem claim7_counterexample :
    path_check_norm "/a" = "a" ∧ norm_claim "/a" = "/a" ∧ ("a" : String) ≠ "/a" := by
  refine ⟨by decide, by decide, by decide⟩

/-- C7 amended: the source normalization trims surrounding whitespace and
then all leading and trailing quote, backslash and slash characters, maps
backslashes to slashes, and collapses doubled slashes in a single
left-to-right pass. -/
theorem claim7_amended (s : String) : path_check_norm s = norm_amended s := by
  unfold path_check_norm norm_amended
  rw [trimMatches_eq_trimRev, trimMatches_eq_trimRev]

/-! Executor lemmas. -/

/-- outcome-to-code table of `handle_rename`. -/
def errCode : Option RenameErr → Int
  | none => 0
  | some RenameErr.permissionDenied => 2
  | some RenameErr.alreadyExists => 3
  | some RenameErr.other => 255

/-- `handle_rename` in terms of the OS outcome. -/
theorem handle_rename_eq {σ : Type} (os : OS σ) (s : σ) (a b : RPath)
    (o : Option RenameErr) (s2 : σ) (h : os.rename s a b = (o, s2)) :
    handle_rename os s a b = (errCode o, s2, ⟨a, b, o⟩) := by
  unfold handle_rename
  rw [h]
  rcases o with _ | e
  · rfl
  · cases e <;> rfl

/-- a `rename_each` trace always contains at least the first attempt. -/
theorem rename_each_trace_ne_nil {σ : Type} (os : OS σ) (self : NameExchange)
    (is_nested file1_first : Bool) (s : σ) :
    (rename_each os self is_nested file1_first s).2.2 ≠ [] := by
  cases is_nested
  · rcases h1 : os.rename s (secondEx self file1_first).original_path
        (secondEx self file1_first).pre_path with ⟨o1, s1⟩
    rcases o1 with _ | e1
    · rcases h2 : os.rename s1 (firstEx self file1_first).original_path
          (firstEx self file1_first).new_path with ⟨o2, s2⟩
      rcases o2 with _ | e2
      · rcases h3 : os.rename s2 (secondEx self file1_first).pre_path
            (secondEx self file1_first).new_path with ⟨o3, s3⟩
        rcases o3 with _ | e3
        · simp [rename_each, handle_rename_eq os s _ _ _ _ h1,
            handle_rename_eq os s1 _ _ _ _ h2, handle_rename_eq os s2 _ _ _ _ h3, errCode]
        · cases e3 <;>
            simp [rename_each, handle_rename_eq os s _ _ _ _ h1,
              handle_rename_eq os s1 _ _ _ _ h2, handle_rename_eq os s2 _ _ _ _ h3, errCode]
      · cases e2 <;>
          simp [rename_each, handle_rename_eq os s _ _ _ _ h1,
            handle_rename_eq os s1 _ _ _ _ h2, errCode]
    · cases e1 <;>
        simp [rename_each, handle_rename_eq os s _ _ _ _ h1, errCode]
  · rcases h1 : os.rename s (firstEx self file1_first).original_path
        (firstEx self file1_first).new_path with ⟨o1, s1⟩
    rcases o1 with _ | e1
    · rcases h2 : os.rename s1 (secondEx self file1_first).original_path
          (secondEx self file1_first).new_path with ⟨o2, s2⟩
      rcases o2 with _ | e2
      · simp [rename_each, handle_rename_eq os s _ _ _ _ h1,
          handle_rename_eq os s1 _ _ _ _ h2, errCode]
      · cases e2 <;>
          simp [rename_each, handle_rename_eq os s _ _ _ _ h1,
            handle_rename_eq os s1 _ _ _ _ h2, errCode]
    · cases e1 <;>
        simp [rename_each, handle_rename_eq os s _ _ _ _ h1, errCode]

/-- the executor yields code 2 exactly when some attempted rename came back
permission-denied (execution stops at the first failure, so such an event
decides the result). -/
theorem rename_each_two_iff {σ : Type} (os : OS σ) (self : NameExchange)
    (is_nested file1_first : Bool) (s : σ) :
    (rename_each os self is_nested file1_first s).1 = 2 ↔
    ∃ ev ∈ (rename_each os self is_nested file1_first s).2.2,
      ev.res = some RenameErr.permissionDenied := by
  cases is_nested
  · rcases h1 : os.rename s (secondEx self file1_first).original_path
        (secondEx self file1_first).pre_path with ⟨o1, s1⟩
    rcases o1 with _ | e1
    · rcases h2 : os.rename s1 (firstEx self file1_first).original_path
          (firstEx self file1_first).new_path with ⟨o2, s2⟩
      rcases o2 with _ | e2
      · rcases h3 : os.rename s2 (secondEx self file1_first).pre_path
            (secondEx self file1_first).new_path with ⟨o3, s3⟩
        rcases o3 with _ | e3
        · simp [rename_each, handle_rename_eq os s _ _ _ _ h1,
            handle_rename_eq os s1 _ _ _ _ h2, handle_rename_eq os s2 _ _ _ _ h3, errCode]
        · cases e3 <;>
            simp [rename_each, handle_rename_eq os s _ _ _ _ h1,
              handle_rename_eq os s1 _ _ _ _ h2, handle_rename_eq os s2 _ _ _ _ h3, errCode]
      · cases e2 <;>
          simp [rename_each, handle_rename_eq os s _ _ _ _ h1,
            handle_rename_eq os s1 _ _ _ _ h2, errCode]
    · cases e1 <;>
        simp [rename_each, handle_rename_eq os s _ _ _ _ h1, errCode]
  · rcases h1 : os.rename s (firstEx self file1_first).original_path
        (firstEx self file1_first).new_path with ⟨o1, s1⟩
    rcases o1 with _ | e1
    · rcases h2 : os.rename s1 (secondEx self file1_first).original_path
          (secondEx self file1_first).new_path with ⟨o2, s2⟩
      rcases o2 with _ | e2
      · simp [rename_each, handle_rename_eq os s _ _ _ _ h1,
          handle_rename_eq os s1 _ _ _ _ h2, errCode]
      · cases e2 <;>
          simp [rename_each, handle_rename_eq os s _ _ _ _ h1,
            handle_rename_eq os s1 _ _ _ _ h2, errCode]
    · cases e1 <;>
        simp [rename_each, handle_rename_eq os s _ _ _ _ h1, errCode]

/-- every dispatch outcome is one of the four `rename_each` calls. -/
theorem renameDispatch_cases {σ : Type} (os : OS σ) (info : NameExchange)
    (is_file1 is_file2 : Bool) (mode : Nat) (s : σ) :
    ∃ nested ff : Bool,
      renameDispatch os info is_file1 is_file2 mode s = rename_each os info nested ff s := by
  cases is_file1 <;> cases is_file2
  · rcases mode with _ | _ | _ | m
    · exact ⟨false, true, rfl⟩
    · exact ⟨true, false, rfl⟩
    · exact ⟨true, true, rfl⟩
    · exact ⟨false, true, rfl⟩
  · by_cases hm : mode = 1
    · exact ⟨true, false, by simp [renameDispatch, hm]⟩
    · exact ⟨false, false, by simp [renameDispatch, hm]⟩
  · by_cases hm : mode = 2
    · exact ⟨true, true, by simp [renameDispatch, hm]⟩
    · exact ⟨false, true, by simp [renameDispatch, hm]⟩
  · exact ⟨false, true, rfl⟩

/-! Stage-reduction lemmas for the driver. -/

/-- resolved existing distinct paths with a clear collision check reach the
dispatch. -/
theorem exchangeCore_dispatch {σ : Type} (os : OS σ) (exe_dir p1 p2 : RPath) (s : σ)
    (he1 : os.pathExists s (make_absolute exe_dir p1) = true)
    (he2 : os.pathExists s (make_absolute exe_dir p2) = true)
    (hne : ¬ make_absolute exe_dir p1 = make_absolute exe_dir p2)
    (hcol : collisionFlag os exe_dir (make_absolute exe_dir p1) (make_absolute exe_dir p2) s
      = false) :
    exchangeCore os exe_dir p1 p2 s
      = renameDispatch os
          (buildInfos (make_absolute exe_dir p1) (make_absolute exe_dir p2)
            (os.isFile s (make_absolute exe_dir p1)) (os.isFile s (make_absolute exe_dir p2)))
          (os.isFile s (make_absolute exe_dir p1)) (os.isFile s (make_absolute exe_dir p2))
          (if_root (make_absolute exe_dir p1) (make_absolute exe_dir p2)) s := by
  unfold exchangeCore
  simp [he1, he2, hne, hcol]

/-- identical resolved existing paths are rejected with code 2 before any
rename. -/
theorem exchangeCore_identity {σ : Type} (os : OS σ) (exe_dir p1 p2 : RPath) (s : σ)
    (he1 : os.pathExists s (make_absolute exe_dir p1) = true)
    (he2 : os.pathExists s (make_absolute exe_dir p2) = true)
    (heq : make_absolute exe_dir p1 = make_absolute exe_dir p2) :
    exchangeCore os exe_dir p1 p2 s = (2, s, []) := by
  unfold exchangeCore
  simp [he1, he2, heq]

/-- a raised collision flag aborts with code 3 before any rename. -/
theorem exchangeCore_collision {σ : Type} (os : OS σ) (exe_dir p1 p2 : RPath) (s : σ)
    (he1 : os.pathExists s (make_absolute exe_dir p1) = true)
    (he2 : os.pathExists s (make_absolute exe_dir p2) = true)
    (hne : ¬ make_absolute exe_dir p1 = make_absolute exe_dir p2)
    (hcol : collisionFlag os exe_dir (make_absolute exe_dir p1) (make_absolute exe_dir p2) s
      = true) :
    exchangeCore os exe_dir p1 p2 s = (3, s, []) := by
  unfold exchangeCore
  simp [he1, he2, hne, hcol]

/-- a failed existence check returns code 1 with nothing attempted. -/
theorem exchangeCore_missing {σ : Type} (os : OS σ) (exe_dir p1 p2 : RPath) (s : σ)
    (h : os.pathExists s (make_absolute exe_dir p1) = false
      ∨ os.pathExists s (make_absolute exe_dir p2) = false) :
    exchangeCore os exe_dir p1 p2 s = (1, s, []) := by
  unfold exchangeCore
  rcases h with h | h <;> simp [h]

/-- C4: the exchange returns code 2 exactly when the two resolved paths are
equal and both exist (the identity rejection), or some attempted rename came
back permission-denied; in the identity case it returns with the world
untouched and no rename attempted. -/
theorem claim4_code_two {σ : Type} (os : OS σ) (exe_dir p1 p2 : RPath) (s : σ) :
    ((exchangeCore os exe_dir p1 p2 s).1 = 2 ↔
      (os.pathExists s (make_absolute exe_dir p1) = true
        ∧ os.pathExists s (make_absolute exe_dir p2) = true
        ∧ make_absolute exe_dir p1 = make_absolute exe_dir p2)
      ∨ ∃ ev ∈ (exchangeCore os exe_dir p1 p2 s).2.2,
          ev.res = some RenameErr.permissionDenied)
    ∧ (os.pathExists s (make_absolute exe_dir p1) = true →
        make_absolute exe_dir p1 = make_absolute exe_dir p2 →
        exchangeCore os exe_dir p1 p2 s = (2, s, [])) := by
  rcases he1 : os.pathExists s (make_absolute exe_dir p1) with _ | _
  · have hx := exchangeCore_missing os exe_dir p1 p2 s (Or.inl he1)
    constructor
    · rw [hx]
      simp [he1]
    · intro h1
      simp at h1
  · rcases he2 : os.pathExists s (make_absolute exe_dir p2) with _ | _
    · have hx := exchangeCore_missing os exe_dir p1 p2 s (Or.inr he2)
      constructor
      · rw [hx]
        simp [he2]
      · intro _ heq
        rw [heq, he2] at he1
        simp at he1
    · by_cases heq : make_absolute exe_dir p1 = make_absolute exe_dir p2
      · have hx := exchangeCore_identity os exe_dir p1 p2 s he1 he2 heq
        constructor
        · rw [hx]
          simp [he1, he2, heq]
        · intro _ _
          exact hx
      · rcases hcol : collisionFlag os exe_dir (make_absolute exe_dir p1)
            (make_absolute exe_dir p2) s with _ | _
        · have hd := exchangeCore_dispatch os exe_dir p1 p2 s he1 he2 heq hcol
          obtain ⟨nested, ff, hdc⟩ := renameDispatch_cases os
            (buildInfos (make_absolute exe_dir p1) (make_absolute exe_dir p2)
              (os.isFile s (make_absolute exe_dir p1))
              (os.isFile s (make_absolute exe_dir p2)))
            (os.isFile s (make_absolute exe_dir p1))
            (os.isFile s (make_absolute exe_dir p2))
            (if_root (make_absolute exe_dir p1) (make_absolute exe_dir p2)) s
          constructor
          · rw [hd, hdc]
            simp only [heq, and_false, false_or]
            exact rename_each_two_iff os _ nested ff s
          · intro _ habs
            exact absurd habs heq
        · have hx := exchangeCore_collision os exe_dir p1 p2 s he1 he2 heq hcol
          constructor
          · rw [hx]
            simp [heq]
          · intro _ habs
            exact absurd habs heq

/-- C4 witness: exchanging an existing file with itself returns 2 and leaves
everything untouched. -/
theorem claim4_witness :
    osFS.pathExists [(⟨true, ["x", "f.txt"]⟩, true)]
        (make_absolute ⟨true, ["e"]⟩ ⟨true, ["x", "f.txt"]⟩) = true
    ∧ exchangeCore osFS ⟨true, ["e"]⟩ ⟨true, ["x", "f.txt"]⟩ ⟨true, ["x", "f.txt"]⟩
        [(⟨true, ["x", "f.txt"]⟩, true)]
      = (2, [(⟨true, ["x", "f.txt"]⟩, true)], []) := by
  refine ⟨by decide, ?_⟩
  exact (claim4_code_two osFS ⟨true, ["e"]⟩ ⟨true, ["x", "f.txt"]⟩ ⟨true, ["x", "f.txt"]⟩
    [(⟨true, ["x", "f.txt"]⟩, true)]).2 (by decide) rfl

/-- C10: the existence check runs before the identity check: a twice-given
path that does not exist yields code 1, not 2; and a code-2 outcome with no
rename attempted (the identity rejection) implies both resolved entries
exist. -/
theorem claim10_order {σ : Type} (os : OS σ) (exe_dir : RPath) (raw : String) (s : σ) :
    (os.pathExists s (make_absolute exe_dir (path_check os s raw)) = false →
      exchangeText os exe_dir raw raw s = (1, s, []))
    ∧ ∀ raw2 : String, (exchangeText os exe_dir raw raw2 s).1 = 2 →
        (exchangeText os exe_dir raw raw2 s).2.2 = [] →
        os.pathExists s (make_absolute exe_dir (path_check os s raw)) = true
        ∧ os.pathExists s (make_absolute exe_dir (path_check os s raw2)) = true := by
  constructor
  · intro h
    unfold exchangeText
    exact exchangeCore_missing os exe_dir (path_check os s raw) (path_check os s raw) s
      (Or.inl h)
  · intro raw2 h2 htr
    unfold exchangeText at h2 htr
    rcases he1 : os.pathExists s (make_absolute exe_dir (path_check os s raw)) with _ | _
    · rw [exchangeCore_missing os exe_dir (path_check os s raw) (path_check os s raw2) s
        (Or.inl he1)] at h2
      simp at h2
    · rcases he2 : os.pathExists s (make_absolute exe_dir (path_check os s raw2)) with _ | _
      · rw [exchangeCore_missing os exe_dir (path_check os s raw) (path_check os s raw2) s
          (Or.inr he2)] at h2
        simp at h2
      · exact ⟨rfl, rfl⟩

/-- C10 witness: on an empty filesystem `exchange(P, P)` for the missing
path text `ghost.txt` returns 1, not 2. -/
theorem claim10_witness :
    osFS.pathExists []
        (make_absolute ⟨true, ["e"]⟩ (path_check osFS [] "ghost.txt")) = false
    ∧ exchangeText osFS ⟨true, ["e"]⟩ "ghost.txt" "ghost.txt" [] = (1, [], []) := by
  refine ⟨by decide, ?_⟩
  exact (claim10_order osFS ⟨true, ["e"]⟩ "ghost.txt" []).1 (by decide)

/-- C3: with both resolved entries existing and distinct, if the computed
destination pack has differing parents and either destination already
exists, the exchange aborts with code 3, the world untouched, before any
rename; if the destinations share their parent directory, the collision
check is skipped and the exchange proceeds straight to the rename dispatch. -/
theorem claim3_collision {σ : Type} (os : OS σ) (exe_dir p1 p2 q1 q2 n1 n2 : RPath)
    (s : σ) (info : NameExchange)
    (hq1 : q1 = make_absolute exe_dir p1) (hq2 : q2 = make_absolute exe_dir p2)
    (he1 : os.pathExists s q1 = true) (he2 : os.pathExists s q2 = true)
    (hne : ¬ q1 = q2)
    (hinfo : info = buildInfos q1 q2 (os.isFile s q1) (os.isFile s q2))
    (hn1 : n1 = make_absolute exe_dir info.f1.exchange.new_path)
    (hn2 : n2 = make_absolute exe_dir info.f2.exchange.new_path) :
    (if_same_dir n1 n2 = false →
      (os.pathExists s n1 = true ∨ os.pathExists s n2 = true) →
      exchangeCore os exe_dir p1 p2 s = (3, s, []))
    ∧ (if_same_dir n1 n2 = true →
      exchangeCore os exe_dir p1 p2 s
        = renameDispatch os info (os.isFile s q1) (os.isFile s q2) (if_root q1 q2) s) := by
  subst hq1
  subst hq2
  subst hinfo
  subst hn1
  subst hn2
  constructor
  · intro hsd hex
    have hcol : collisionFlag os exe_dir (make_absolute exe_dir p1)
        (make_absolute exe_dir p2) s = true := by
      rcases hex with h | h <;> simp [collisionFlag, hsd, h]
    exact exchangeCore_collision os exe_dir p1 p2 s he1 he2 hne hcol
  · intro hsd
    have hcol : collisionFlag os exe_dir (make_absolute exe_dir p1)
        (make_absolute exe_dir p2) s = false := by
      simp [collisionFlag, hsd]
    exact exchangeCore_dispatch os exe_dir p1 p2 s he1 he2 hne hcol

/-- C3 witness: directories `/x/foo` and `/y/bar` with an unrelated `/x/bar`
already present; the parents of the destinations differ, `/x/bar` exists,
and the exchange aborts with 3 leaving the filesystem unchanged. -/
theorem claim3_witness :
    if_same_dir ⟨true, ["x", "bar"]⟩ ⟨true, ["y", "foo"]⟩ = false
    ∧ osFS.pathExists
        [(⟨true, ["x", "foo"]⟩, false), (⟨true, ["y", "bar"]⟩, false),
         (⟨true, ["x", "bar"]⟩, false)] ⟨true, ["x", "bar"]⟩ = true
    ∧ exchangeCore osFS ⟨true, ["e"]⟩ ⟨true, ["x", "foo"]⟩ ⟨true, ["y", "bar"]⟩
        [(⟨true, ["x", "foo"]⟩, false), (⟨true, ["y", "bar"]⟩, false),
         (⟨true, ["x", "bar"]⟩, false)]
      = (3, [(⟨true, ["x", "foo"]⟩, false), (⟨true, ["y", "bar"]⟩, false),
             (⟨true, ["x", "bar"]⟩, false)], []) := by
  have h := claim3_collision osFS ⟨true, ["e"]⟩ ⟨true, ["x", "foo"]⟩ ⟨true, ["y", "bar"]⟩
      ⟨true, ["x", "foo"]⟩ ⟨true, ["y", "bar"]⟩ ⟨true, ["x", "bar"]⟩ ⟨true, ["y", "foo"]⟩
      [(⟨true, ["x", "foo"]⟩, false), (⟨true, ["y", "bar"]⟩, false),
       (⟨true, ["x", "bar"]⟩, false)]
      (buildInfos ⟨true, ["x", "foo"]⟩ ⟨true, ["y", "bar"]⟩ false false)
      (by decide) (by decide) (by decide) (by decide) (by decide) (by decide)
      (by decide) (by decide)
  exact ⟨by decide, by decide, h.1 (by decide) (Or.inl (by decide))⟩

/-- the nested strategy only ever attempts the two direct renames, first
entry then second entry, with no staging destination. -/
theorem rename_each_nested_pairs {σ : Type} (os : OS σ) (self : NameExchange)
    (file1_first : Bool) (s : σ) :
    ((rename_each os self true file1_first s).2.2.map (fun ev => (ev.src, ev.dst))) <+:
      [((firstEx self file1_first).original_path, (firstEx self file1_first).new_path),
       ((secondEx self file1_first).original_path, (secondEx self file1_first).new_path)] := by
  rcases h1 : os.rename s (firstEx self file1_first).original_path
      (firstEx self file1_first).new_path with ⟨o1, s1⟩
  rcases o1 with _ | e1
  · rcases h2 : os.rename s1 (secondEx self file1_first).original_path
        (secondEx self file1_first).new_path with ⟨o2, s2⟩
    rcases o2 with _ | e2
    · simp [rename_each, handle_rename_eq os s _ _ _ _ h1,
        handle_rename_eq os s1 _ _ _ _ h2, errCode]
    · cases e2 <;>
        simp [rename_each, handle_rename_eq os s _ _ _ _ h1,
          handle_rename_eq os s1 _ _ _ _ h2, errCode]
  · cases e1 <;>
      simp [rename_each, handle_rename_eq os s _ _ _ _ h1, errCode]

/-- a successful nested run attempts exactly the two direct renames in
order. -/
theorem rename_each_nested_zero {σ : Type} (os : OS σ) (self : NameExchange)
    (file1_first : Bool) (s : σ)
    (h0 : (rename_each os self true file1_first s).1 = 0) :
    (rename_each os self true file1_first s).2.2
      = [⟨(firstEx self file1_first).original_path,
          (firstEx self file1_first).new_path, none⟩,
         ⟨(secondEx self file1_first).original_path,
          (secondEx self file1_first).new_path, none⟩] := by
  rcases h1 : os.rename s (firstEx self file1_first).original_path
      (firstEx self file1_first).new_path with ⟨o1, s1⟩
  rcases o1 with _ | e1
  · rcases h2 : os.rename s1 (secondEx self file1_first).original_path
        (secondEx self file1_first).new_path with ⟨o2, s2⟩
    rcases o2 with _ | e2
    · simp [rename_each, handle_rename_eq os s _ _ _ _ h1,
        handle_rename_eq os s1 _ _ _ _ h2, errCode]
    · rw [rename_each] at h0
      simp [handle_rename_eq os s _ _ _ _ h1, handle_rename_eq os s1 _ _ _ _ h2] at h0
      cases e2 <;> simp [errCode] at h0
  · rw [rename_each] at h0
    simp [handle_rename_eq os s _ _ _ _ h1] at h0
    cases e1 <;> simp [errCode] at h0

/-- the dispatch row for containment mode 1 with a non-file first entry:
nested swap with the second entry renamed first (`file1_first = false`). -/
theorem renameDispatch_mode1 {σ : Type} (os : OS σ) (info : NameExchange)
    (b2 : Bool) (s : σ) :
    renameDispatch os info false b2 1 s = rename_each os info true false s := by
  cases b2 <;> simp [renameDispatch]

/-- the dispatch row for containment mode 2 with a non-file second entry:
nested swap with the first entry renamed first (`file1_first = true`). -/
theorem renameDispatch_mode2 {σ : Type} (os : OS σ) (info : NameExchange)
    (b1 : Bool) (s : σ) :
    renameDispatch os info b1 false 2 s = rename_each os info true true s := by
  cases b1 <;> simp [renameDispatch]

/-- C1 (amended): for a nested request the executor performs the nested
swap with no staging path, but in the order opposite to the claim's table:
when entry 1 contains entry 2 (mode 1, so entry 1 is a directory), entry 2
is renamed to its final name first and entry 1 second; when entry 2
contains entry 1 (mode 2, so entry 2 is a directory), entry 1 is renamed
first and entry 2 second. -/
theorem claim1_amended {σ : Type} (os : OS σ) (exe_dir p1 p2 q1 q2 : RPath) (s : σ)
    (info : NameExchange)
    (hq1 : q1 = make_absolute exe_dir p1) (hq2 : q2 = make_absolute exe_dir p2)
    (he1 : os.pathExists s q1 = true) (he2 : os.pathExists s q2 = true)
    (hne : ¬ q1 = q2)
    (hinfo : info = buildInfos q1 q2 (os.isFile s q1) (os.isFile s q2))
    (hcol : collisionFlag os exe_dir q1 q2 s = false) :
    (if_root q1 q2 = 1 → os.isFile s q1 = false →
      exchangeCore os exe_dir p1 p2 s = rename_each os info true false s
      ∧ ((exchangeCore os exe_dir p1 p2 s).2.2.map (fun ev => (ev.src, ev.dst))) <+:
          [(info.f2.exchange.original_path, info.f2.exchange.new_path),
           (info.f1.exchange.original_path, info.f1.exchange.new_path)]
      ∧ ((exchangeCore os exe_dir p1 p2 s).1 = 0 →
          (exchangeCore os exe_dir p1 p2 s).2.2
            = [⟨info.f2.exchange.original_path, info.f2.exchange.new_path, none⟩,
               ⟨info.f1.exchange.original_path, info.f1.exchange.new_path, none⟩]))
    ∧ (if_root q1 q2 = 2 → os.isFile s q2 = false →
      exchangeCore os exe_dir p1 p2 s = rename_each os info true true s
      ∧ ((exchangeCore os exe_dir p1 p2 s).2.2.map (fun ev => (ev.src, ev.dst))) <+:
          [(info.f1.exchange.original_path, info.f1.exchange.new_path),
           (info.f2.exchange.original_path, info.f2.exchange.new_path)]
      ∧ ((exchangeCore os exe_dir p1 p2 s).1 = 0 →
          (exchangeCore os exe_dir p1 p2 s).2.2
            = [⟨info.f1.exchange.original_path, info.f1.exchange.new_path, none⟩,
               ⟨info.f2.exchange.original_path, info.f2.exchange.new_path, none⟩])) := by
  subst hq1
  subst hq2
  subst hinfo
  constructor
  · intro hm hb1
    have hd := exchangeCore_dispatch os exe_dir p1 p2 s he1 he2 hne hcol
    rw [hm, hb1, renameDispatch_mode1] at hd
    simp only [hb1]
    refine ⟨hd, ?_, ?_⟩
    · rw [hd]
      simpa [firstEx, secondEx] using rename_each_nested_pairs os
        (buildInfos (make_absolute exe_dir p1) (make_absolute exe_dir p2) false
          (os.isFile s (make_absolute exe_dir p2))) false s
    · intro h0
      rw [hd] at h0 ⊢
      simpa [firstEx, secondEx] using rename_each_nested_zero os
        (buildInfos (make_absolute exe_dir p1) (make_absolute exe_dir p2) false
          (os.isFile s (make_absolute exe_dir p2))) false s h0
  · intro hm hb2
    have hd := exchangeCore_dispatch os exe_dir p1 p2 s he1 he2 hne hcol
    rw [hm, hb2, renameDispatch_mode2] at hd
    simp only [hb2]
    refine ⟨hd, ?_, ?_⟩
    · rw [hd]
      simpa [firstEx, secondEx] using rename_each_nested_pairs os
        (buildInfos (make_absolute exe_dir p1) (make_absolute exe_dir p2)
          (os.isFile s (make_absolute exe_dir p1)) false) true s
    · intro h0
      rw [hd] at h0 ⊢
      simpa [firstEx, secondEx] using rename_each_nested_zero os
        (buildInfos (make_absolute exe_dir p1) (make_absolute exe_dir p2)
          (os.isFile s (make_absolute exe_dir p1)) false) true s h0

/-- C1 counterexample: directories `/a` (entry 1) and `/a/b` (entry 2) give
containment mode 1 (FIRST_CONTAINS_SECOND) and the run succeeds, but the
first attempted rename is entry 2's (`/a/b` to `/a/a`), not entry 1's
(`/a` to `/b`) as the claim's table row demands. -/
theorem claim1_counterexample :
    if_root ⟨true, ["a"]⟩ ⟨true, ["a", "b"]⟩ = 1
    ∧ (exchangeCore osFS ⟨true, ["e"]⟩ ⟨true, ["a"]⟩ ⟨true, ["a", "b"]⟩
        [(⟨true, ["a"]⟩, false), (⟨true, ["a", "b"]⟩, false)]).1 = 0
    ∧ ((exchangeCore osFS ⟨true, ["e"]⟩ ⟨true, ["a"]⟩ ⟨true, ["a", "b"]⟩
        [(⟨true, ["a"]⟩, false), (⟨true, ["a", "b"]⟩, false)]).2.2.map
          (fun ev => (ev.src, ev.dst))).head?
        = some (⟨true, ["a", "b"]⟩, ⟨true, ["a", "a"]⟩)
    ∧ some ((⟨true, ["a", "b"]⟩ : RPath), (⟨true, ["a", "a"]⟩ : RPath))
        ≠ some ((⟨true, ["a"]⟩ : RPath), (⟨true, ["b"]⟩ : RPath)) := by
  exact ⟨by decide, by decide, by decide, by decide⟩

/-- C1 witness: the same nested pair run through the amended theorem — the
successful trace is exactly entry 2 then entry 1, with no staging path. -/
theorem claim1_witness :
    (exchangeCore osFS ⟨true, ["e"]⟩ ⟨true, ["a"]⟩ ⟨true, ["a", "b"]⟩
        [(⟨true, ["a"]⟩, false), (⟨true, ["a", "b"]⟩, false)]).2.2
      = [⟨⟨true, ["a", "b"]⟩, ⟨true, ["a", "a"]⟩, none⟩,
         ⟨⟨true, ["a"]⟩, ⟨true, ["b"]⟩, none⟩] := by
  have h := (claim1_amended osFS ⟨true, ["e"]⟩ ⟨true, ["a"]⟩ ⟨true, ["a", "b"]⟩
      ⟨true, ["a"]⟩ ⟨true, ["a", "b"]⟩
      [(⟨true, ["a"]⟩, false), (⟨true, ["a", "b"]⟩, false)]
      (buildInfos ⟨true, ["a"]⟩ ⟨true, ["a", "b"]⟩ false false)
      (by decide) (by decide) (by decide) (by decide) (by decide) (by decide)
      (by decide)).1 (by decide) (by decide)
  have h3 := h.2.2 (by decide)
  rw [h3]
  decide

/-! Concrete filesystem lemmas for the staged swap. -/

/-- existence is membership of the entry list. -/
theorem fsExists_iff (s : FSState) (p : RPath) :
    fsExists s p = true ↔ ∃ e ∈ s, e.1 = p := by
  unfold fsExists
  simp [List.any_eq_true]

/-- a successful concrete rename demands a free destination and rewrites
every entry under the source. -/
theorem fsRename_none (s : FSState) (src dst : RPath) (s2 : FSState)
    (h : fsRename s src dst = (none, s2)) :
    fsExists s dst = false
    ∧ s2 = s.map (fun e => (renameOne src dst e.1, e.2)) := by
  unfold fsRename at h
  rcases h1 : fsExists s dst with _ | _
  · rw [h1] at h
    rcases h2 : fsExists s src with _ | _
    · rw [h2] at h
      simp at h
    · rw [h2] at h
      simp at h
      exact ⟨rfl, h.symm⟩
  · rw [h1] at h
    simp at h

/-- after a rewrite, any present entry either lies under the rename
destination or was already present and not under the source. -/
theorem fsExists_after_rename (s : FSState) (src dst x : RPath)
    (hx : fsExists (s.map (fun e => (renameOne src dst e.1, e.2))) x = true) :
    listIsPre (rcomps dst) (rcomps x) = true
    ∨ (fsExists s x = true ∧ isUnder src x = false) := by
  rw [fsExists_iff] at hx
  obtain ⟨e2, he2, hx2⟩ := hx
  rw [List.mem_map] at he2
  obtain ⟨e, he, rfl⟩ := he2
  by_cases hu : isUnder src e.1 = true
  · left
    have hrn : renameOne src dst e.1
        = ⟨dst.absolute, dst.comps ++ e.1.comps.drop src.comps.length⟩ := by
      unfold renameOne
      rw [if_pos hu]
    rw [hrn] at hx2
    rw [← hx2]
    show listIsPre (rcomps dst)
      (rcomps ⟨dst.absolute, dst.comps ++ e.1.comps.drop src.comps.length⟩) = true
    unfold rcomps
    rw [List.map_append, ← List.append_assoc]
    exact listIsPre_append _ _
  · right
    have hrn : renameOne src dst e.1 = e.1 := by
      unfold renameOne
      simp [hu]
    rw [hrn] at hx2
    refine ⟨?_, ?_⟩
    · rw [fsExists_iff]
      exact ⟨e, he, hx2⟩
    · rw [← hx2]
      simpa using hu

/-- an absent entry stays absent through a rewrite whose destination does
not cover it. -/
theorem fsExists_rename_false (s : FSState) (src dst x : RPath)
    (hx : fsExists s x = false)
    (hnd : listIsPre (rcomps dst) (rcomps x) = false) :
    fsExists (s.map (fun e => (renameOne src dst e.1, e.2))) x = false := by
  rcases h : fsExists (s.map (fun e => (renameOne src dst e.1, e.2))) x with _ | _
  · exact h
  · rcases fsExists_after_rename s src dst x h with h1 | ⟨h1, _⟩
    · rw [hnd] at h1
      simp at h1
    · rw [hx] at h1
      simp at h1

/-- the rename source itself is gone after a rewrite whose destination does
not cover it. -/
theorem fsExists_rename_srcgone (s : FSState) (src dst x : RPath)
    (hu : isUnder src x = true)
    (hnd : listIsPre (rcomps dst) (rcomps x) = false) :
    fsExists (s.map (fun e => (renameOne src dst e.1, e.2))) x = false := by
  rcases h : fsExists (s.map (fun e => (renameOne src dst e.1, e.2))) x with _ | _
  · exact h
  · rcases fsExists_after_rename s src dst x h with h1 | ⟨_, h2⟩
    · rw [hnd] at h1
      simp at h1
    · rw [hu] at h2
      simp at h2

/-- a successful staged run decomposes into its three ordered renames and
their trace. -/
theorem rename_each_staged_success {σ : Type} (os : OS σ) (self : NameExchange)
    (ff : Bool) (s : σ)
    (h0 : (rename_each os self false ff s).1 = 0) :
    ∃ s1 s2 : σ,
      os.rename s (secondEx self ff).original_path (secondEx self ff).pre_path = (none, s1)
      ∧ os.rename s1 (firstEx self ff).original_path (firstEx self ff).new_path = (none, s2)
      ∧ os.rename s2 (secondEx self ff).pre_path (secondEx self ff).new_path
          = (none, (rename_each os self false ff s).2.1)
      ∧ (rename_each os self false ff s).2.2
          = [⟨(secondEx self ff).original_path, (secondEx self ff).pre_path, none⟩,
             ⟨(firstEx self ff).original_path, (firstEx self ff).new_path, none⟩,
             ⟨(secondEx self ff).pre_path, (secondEx self ff).new_path, none⟩] := by
  rcases h1 : os.rename s (secondEx self ff).original_path
      (secondEx self ff).pre_path with ⟨o1, s1⟩
  rcases o1 with _ | e1
  · rcases h2 : os.rename s1 (firstEx self ff).original_path
        (firstEx self ff).new_path with ⟨o2, s2⟩
    rcases o2 with _ | e2
    · rcases h3 : os.rename s2 (secondEx self ff).pre_path
          (secondEx self ff).new_path with ⟨o3, s3⟩
      rcases o3 with _ | e3
      · have hr : rename_each os self false ff s
            = (0, s3,
               [⟨(secondEx self ff).original_path, (secondEx self ff).pre_path, none⟩,
                ⟨(firstEx self ff).original_path, (firstEx self ff).new_path, none⟩,
                ⟨(secondEx self ff).pre_path, (secondEx self ff).new_path, none⟩]) := by
          simp [rename_each, handle_rename_eq os s _ _ _ _ h1,
            handle_rename_eq os s1 _ _ _ _ h2, handle_rename_eq os s2 _ _ _ _ h3, errCode]
        refine ⟨s1, s2, rfl, h2, ?_, ?_⟩
        · rw [hr]
          exact h3
        · rw [hr]
      · exfalso
        rw [rename_each] at h0
        simp [handle_rename_eq os s _ _ _ _ h1, handle_rename_eq os s1 _ _ _ _ h2,
          handle_rename_eq os s2 _ _ _ _ h3] at h0
        cases e3 <;> simp [errCode] at h0
    · exfalso
      rw [rename_each] at h0
      simp [handle_rename_eq os s _ _ _ _ h1, handle_rename_eq os s1 _ _ _ _ h2] at h0
      cases e2 <;> simp [errCode] at h0
  · exfalso
    rw [rename_each] at h0
    simp [handle_rename_eq os s _ _ _ _ h1] at h0
    cases e1 <;> simp [errCode] at h0

/-- C2: a successful staged swap attempts exactly three renames in order —
the second-to-execute entry to its own staging path, the first-to-execute
entry directly to its final name, the staging path to the second entry's
final name — and afterwards neither staging path exists on disk (under the
reservation hypotheses that make the staging names fresh: the unused staging
path is not initially present and no rename destination covers a staging
path).  The dispatch sends every containment-free request (mode 0) to this
staged strategy, whatever the two kind flags are. -/
theorem claim2_staged (self : NameExchange) (ff : Bool) (s0 : FSState)
    (h0 : (rename_each osFS self false ff s0).1 = 0)
    (hA : listIsPre (rcomps (secondEx self ff).new_path)
      (rcomps (secondEx self ff).pre_path) = false)
    (hB : fsExists s0 (firstEx self ff).pre_path = false)
    (hC : listIsPre (rcomps (secondEx self ff).pre_path)
      (rcomps (firstEx self ff).pre_path) = false)
    (hD : listIsPre (rcomps (firstEx self ff).new_path)
      (rcomps (firstEx self ff).pre_path) = false)
    (hE : listIsPre (rcomps (secondEx self ff).new_path)
      (rcomps (firstEx self ff).pre_path) = false) :
    (rename_each osFS self false ff s0).2.2
      = [⟨(secondEx self ff).original_path, (secondEx self ff).pre_path, none⟩,
         ⟨(firstEx self ff).original_path, (firstEx self ff).new_path, none⟩,
         ⟨(secondEx self ff).pre_path, (secondEx self ff).new_path, none⟩]
    ∧ fsExists (rename_each osFS self false ff s0).2.1 (secondEx self ff).pre_path = false
    ∧ fsExists (rename_each osFS self false ff s0).2.1 (firstEx self ff).pre_path = false
    ∧ (∀ b1 b2 : Bool, ∃ ff2 : Bool,
        renameDispatch osFS self b1 b2 0 s0 = rename_each osFS self false ff2 s0) := by
  obtain ⟨s1, s2, h1, h2, h3, htr⟩ := rename_each_staged_success osFS self ff s0 h0
  have h1f : fsRename s0 (secondEx self ff).original_path (secondEx self ff).pre_path
      = (none, s1) := h1
  have h2f : fsRename s1 (firstEx self ff).original_path (firstEx self ff).new_path
      = (none, s2) := h2
  have h3f : fsRename s2 (secondEx self ff).pre_path (secondEx self ff).new_path
      = (none, (rename_each osFS self false ff s0).2.1) := h3
  obtain ⟨_, hs1⟩ := fsRename_none _ _ _ _ h1f
  obtain ⟨_, hs2⟩ := fsRename_none _ _ _ _ h2f
  obtain ⟨_, hs3⟩ := fsRename_none _ _ _ _ h3f
  refine ⟨htr, ?_, ?_, ?_⟩
  · rw [hs3]
    exact fsExists_rename_srcgone s2 _ _ _ (isUnder_self _) hA
  · rw [hs3]
    refine fsExists_rename_false s2 _ _ _ ?_ hE
    rw [hs2]
    refine fsExists_rename_false s1 _ _ _ ?_ hD
    rw [hs1]
    exact fsExists_rename_false s0 _ _ _ hB hC
  · intro b1 b2
    cases b1 <;> cases b2
    · exact ⟨true, rfl⟩
    · exact ⟨false, by simp [renameDispatch]⟩
    · exact ⟨true, by simp [renameDispatch]⟩
    · exact ⟨true, rfl⟩

/-- C2 witness: the sibling files `/x/a.txt` and `/x/b.log`.  The staged
run succeeds with exactly the three renames in order and afterwards neither
staging path (`/x/<GUID>.log`, `/x/<GUID>.txt`) exists. -/
theorem claim2_witness :
    ((rename_each osFS
        (buildInfos ⟨true, ["x", "a.txt"]⟩ ⟨true, ["x", "b.log"]⟩ true true) false true
        [(⟨true, ["x", "a.txt"]⟩, true), (⟨true, ["x", "b.log"]⟩, true)]).1 = 0)
    ∧ (rename_each osFS
        (buildInfos ⟨true, ["x", "a.txt"]⟩ ⟨true, ["x", "b.log"]⟩ true true) false true
        [(⟨true, ["x", "a.txt"]⟩, true), (⟨true, ["x", "b.log"]⟩, true)]).2.2
      = [⟨(secondEx (buildInfos ⟨true, ["x", "a.txt"]⟩ ⟨true, ["x", "b.log"]⟩ true true)
            true).original_path,
          (secondEx (buildInfos ⟨true, ["x", "a.txt"]⟩ ⟨true, ["x", "b.log"]⟩ true true)
            true).pre_path, none⟩,
         ⟨(firstEx (buildInfos ⟨true, ["x", "a.txt"]⟩ ⟨true, ["x", "b.log"]⟩ true true)
            true).original_path,
          (firstEx (buildInfos ⟨true, ["x", "a.txt"]⟩ ⟨true, ["x", "b.log"]⟩ true true)
            true).new_path, none⟩,
         ⟨(secondEx (buildInfos ⟨true, ["x", "a.txt"]⟩ ⟨true, ["x", "b.log"]⟩ true true)
            true).pre_path,
          (secondEx (buildInfos ⟨true, ["x", "a.txt"]⟩ ⟨true, ["x", "b.log"]⟩ true true)
            true).new_path, none⟩]
    ∧ fsExists (rename_each osFS
        (buildInfos ⟨true, ["x", "a.txt"]⟩ ⟨true, ["x", "b.log"]⟩ true true) false true
        [(⟨true, ["x", "a.txt"]⟩, true), (⟨true, ["x", "b.log"]⟩, true)]).2.1
        (secondEx (buildInfos ⟨true, ["x", "a.txt"]⟩ ⟨true, ["x", "b.log"]⟩ true true)
          true).pre_path = false
    ∧ fsExists (rename_each osFS
        (buildInfos ⟨true, ["x", "a.txt"]⟩ ⟨true, ["x", "b.log"]⟩ true true) false true
        [(⟨true, ["x", "a.txt"]⟩, true), (⟨true, ["x", "b.log"]⟩, true)]).2.1
        (firstEx (buildInfos ⟨true, ["x", "a.txt"]⟩ ⟨true, ["x", "b.log"]⟩ true true)
          true).pre_path = false := by
  have h := claim2_staged
      (buildInfos ⟨true, ["x", "a.txt"]⟩ ⟨true, ["x", "b.log"]⟩ true true) true
      [(⟨true, ["x", "a.txt"]⟩, true), (⟨true, ["x", "b.log"]⟩, true)]
      (by decide) (by decide) (by decide) (by decide) (by decide) (by decide)
  exact ⟨by decide, h.1, h.2.1, h.2.2.1⟩
